import Mathlib

/-!
Verification development for the constrained linear-algebra core of
`pyNastran/bdf/dev_vectorized/solver/solver.py` (class `Solver`).

The Python code is shallowly embedded: matrices are `List (List ℚ)` or index
functions `ℕ → ℕ → ℚ`, vectors are `List ℚ`, in-place numpy mutation becomes
explicit state passing, and the external `numpy.linalg.solve` / `numpy.linalg.eig`
calls are passed in as parameters (an `Option`-valued oracle models the
exception branch).  Exact arithmetic over `ℚ` is used because every comparison
in the embedded code paths is an exact comparison with `0.0`.
-/

set_option maxHeartbeats 1000000

namespace PyNastranSolver

open Matrix

/-! ## Shared list helpers -/

/-- Sequential element-wise assignment `U[idx[k]] = vals[k]` (numpy fancy-index
store, and the scatter loops `for (i, iu) in enumerate(idx): U[iu] = vals[i]`). -/
def setIndices (U : List ℚ) (idx : List ℕ) (vals : List ℚ) : List ℚ :=
  (idx.zip vals).foldl (fun u p => u.set p.1 p.2) U

theorem setIndices_nil (U : List ℚ) (vals : List ℚ) : setIndices U [] vals = U := rfl

theorem setIndices_cons (U : List ℚ) (i : ℕ) (idx : List ℕ) (v : ℚ) (vals : List ℚ) :
    setIndices U (i :: idx) (v :: vals) = setIndices (U.set i v) idx vals := rfl

theorem setIndices_length (idx : List ℕ) (U : List ℚ) (vals : List ℚ) :
    (setIndices U idx vals).length = U.length := by
  induction idx generalizing U vals with
  | nil => rfl
  | cons i is ih =>
    cases vals with
    | nil => rfl
    | cons v vs =>
      rw [setIndices_cons, ih]
      simp

theorem setIndices_getD_not_mem (idx : List ℕ) (U : List ℚ) (vals : List ℚ)
    (i : ℕ) (h : i ∉ idx) :
    (setIndices U idx vals).getD i 0 = U.getD i 0 := by
  induction idx generalizing U vals with
  | nil => rfl
  | cons j js ih =>
    cases vals with
    | nil => rfl
    | cons v vs =>
      rw [setIndices_cons, ih _ _ (fun hm => h (List.mem_cons_of_mem _ hm))]
      have hij : i ≠ j := fun he => h (he ▸ List.mem_cons_self j js)
      simp [List.getD, List.getElem?_set_ne (Ne.symm hij)]

theorem getD_set_self (U : List ℚ) (i : ℕ) (v : ℚ) (h : i < U.length) :
    (U.set i v).getD i 0 = v := by
  simp [List.getD, List.getElem?_set_self, h]

theorem setIndices_getD_mem (idx : List ℕ) (U : List ℚ) (vals : List ℚ)
    (hnd : idx.Nodup) (hlen : vals.length = idx.length)
    (hbound : ∀ j ∈ idx, j < U.length) (k : ℕ) (hk : k < idx.length) :
    (setIndices U idx vals).getD (idx.get ⟨k, hk⟩) 0 = vals.getD k 0 := by
  induction idx generalizing U vals k with
  | nil => exact absurd hk (by simp)
  | cons j js ih =>
    cases vals with
    | nil => exact absurd hlen (by simp)
    | cons v vs =>
      rw [setIndices_cons]
      cases k with
      | zero =>
        have hj : j ∉ js := (List.nodup_cons.mp hnd).1
        rw [show (j :: js).get ⟨0, hk⟩ = j from rfl,
          setIndices_getD_not_mem js _ vs j hj]
        exact getD_set_self U j v (hbound j (List.mem_cons_self j js))
      | succ k =>
        have hk' : k < js.length := by
          simpa using Nat.lt_of_succ_lt_succ hk
        rw [show (j :: js).get ⟨k + 1, hk⟩ = js.get ⟨k, hk'⟩ from rfl]
        rw [ih _ _ (List.nodup_cons.mp hnd).2 (by simpa using hlen)
          (fun x hx => by rw [List.length_set]; exact hbound x (List.mem_cons_of_mem _ hx)) k hk']
        rfl

theorem getD_replicate_zero (n : ℕ) (i : ℕ) :
    (List.replicate n (0 : ℚ)).getD i 0 = 0 := by
  rcases lt_or_ge i n with h | h
  · simp [List.getD, List.getElem?_replicate, h]
  · have : (List.replicate n (0 : ℚ)).length ≤ i := by simpa using h
    simp [List.getD, List.getElem?_eq_none this]

/-! ## Embedding of `Solver._solve` (solver.py lines 247-296) -/

/-- Python `max(F)` on a nonempty sequence, as a fold seeded with the first element. -/
def pyMax (F : List ℚ) : ℚ := F.foldl max (F.headD 0)

/-- Python `min(F)` on a nonempty sequence, as a fold seeded with the first element. -/
def pyMin (F : List ℚ) : ℚ := F.foldl min (F.headD 0)

/-- The failed-pivot rows collected by the loop
`for i, iu in enumerate(dofs): if K[i, i] == 0.0: faileds.append(i)`
inside the exception handler of `Solver._solve`; `ndofs = len(dofs)`. -/
def faileds (K : List (List ℚ)) (ndofs : ℕ) : List ℕ :=
  (List.range ndofs).filter (fun i => decide ((K.getD i []).getD i 0 = 0))

/-- `ilist = sorted(set(range(len(dofs))).difference(set(faileds)))`: filtering the
(sorted) range by non-membership in `faileds` is exactly the sorted set difference. -/
def ilist (K : List (List ℚ)) (ndofs : ℕ) : List ℕ :=
  (List.range ndofs).filter (fun i => decide (i ∉ faileds K ndofs))

/-- `K2 = K[ilist, :][:, ilist]` — the rows and columns of `K` kept by `ilist`. -/
def reducedK (K : List (List ℚ)) (ndofs : ℕ) : List (List ℚ) :=
  (ilist K ndofs).map (fun i => (ilist K ndofs).map (fun j => (K.getD i []).getD j 0))

/-- `F2 = F[ilist]` — the entries of `F` kept by `ilist`. -/
def reducedF (K : List (List ℚ)) (F : List ℚ) (ndofs : ℕ) : List ℚ :=
  (ilist K ndofs).map (fun i => F.getD i 0)

/-- Embedding of `Solver._solve(K, F, dofs)`.  The external `numpy.linalg.solve` is
the parameter `np_solve`, with `none` modelling the exception branch.  The method:
(1) asserts `max(F) != min(F)` when `F[0] == 0.0` (message `no load is applied...`);
(2) tries the direct solve; (3) on failure collects the exactly-zero diagonal pivots,
and — the AUTOSPC branch is unconditionally enabled in the source (`if 1: value = 1`) —
removes those rows/columns, re-solves the reduced system once, and scatters the
reduced solution into a zero vector of length `len(F)`.  A failure of the second
solve propagates (modelled as an error). -/
def solver_solve (np_solve : List (List ℚ) → List ℚ → Option (List ℚ))
    (K : List (List ℚ)) (F : List ℚ) (dofs : List ℕ) : Except String (List ℚ) :=
  if F.headD 0 = 0 ∧ pyMax F = pyMin F then .error "no load is applied..."
  else
    match np_solve K F with
    | some U => .ok U
    | none =>
      match np_solve (reducedK K dofs.length) (reducedF K F dofs.length) with
      | some U2 => .ok (setIndices (List.replicate F.length 0) (ilist K dofs.length) U2)
      | none => .error "singular matrix"

theorem foldl_max_const (l : List ℚ) (c : ℚ) (h : ∀ x ∈ l, x = c) :
    l.foldl max c = c := by
  induction l with
  | nil => rfl
  | cons a as ih =>
    have ha : a = c := h a (List.mem_cons_self a as)
    simp only [List.foldl_cons, ha, max_self]
    exact ih (fun x hx => h x (List.mem_cons_of_mem _ hx))

theorem foldl_min_const (l : List ℚ) (c : ℚ) (h : ∀ x ∈ l, x = c) :
    l.foldl min c = c := by
  induction l with
  | nil => rfl
  | cons a as ih =>
    have ha : a = c := h a (List.mem_cons_self a as)
    simp only [List.foldl_cons, ha, min_self]
    exact ih (fun x hx => h x (List.mem_cons_of_mem _ hx))

/-- C10: for every stiffness matrix `K` and every load vector `F` whose first entry is
exactly `0.0` and whose entries are all equal, `Solver._solve` raises the assertion
`no load is applied...` before attempting the linear solve (the result does not depend
on the linear-solve oracle at all, and holds for nonsingular `K` too). -/
theorem c10_zero_uniform_load_rejected
    (np_solve : List (List ℚ) → List ℚ → Option (List ℚ))
    (K : List (List ℚ)) (F : List ℚ) (dofs : List ℕ)
    (hne : F ≠ []) (h0 : F.headD 0 = 0) (heq : ∀ x ∈ F, x = F.headD 0) :
    solver_solve np_solve K F dofs = .error "no load is applied..." := by
  have hmax : pyMax F = pyMin F := by
    unfold pyMax pyMin
    rw [foldl_max_const F _ heq, foldl_min_const F _ heq]
  unfold solver_solve
  rw [if_pos ⟨h0, hmax⟩]

/-- Witness for C10 at `K = [[1]]`, `F = [0]` (nonsingular `K`, all-zero load),
with an oracle that would happily solve the system if asked. -/
theorem c10_zero_uniform_load_rejected_witness :
    ([(0 : ℚ)] ≠ [] ∧ ([(0 : ℚ)]).headD 0 = 0 ∧ ∀ x ∈ [(0 : ℚ)], x = ([(0 : ℚ)]).headD 0) ∧
    solver_solve (fun _ _ => some [0]) [[(1 : ℚ)]] [(0 : ℚ)] [0] =
      .error "no load is applied..." :=
  ⟨⟨by decide, by decide, by decide⟩,
    c10_zero_uniform_load_rejected (fun _ _ => some [0]) [[(1 : ℚ)]] [(0 : ℚ)] [0]
      (by decide) (by decide) (by decide)⟩

theorem getD_map {α β : Type} (f : α → β) (l : List α) (a : ℕ) (h : a < l.length) (d : β) :
    (l.map f).getD a d = f (l.get ⟨a, h⟩) := by
  simp [List.getD, List.getElem?_map, List.getElem?_eq_getElem h]

theorem mem_faileds_iff (K : List (List ℚ)) (ndofs : ℕ) (i : ℕ) :
    i ∈ faileds K ndofs ↔ i < ndofs ∧ (K.getD i []).getD i 0 = 0 := by
  simp [faileds, List.mem_filter, List.mem_range]

theorem mem_ilist_iff (K : List (List ℚ)) (ndofs : ℕ) (i : ℕ) :
    i ∈ ilist K ndofs ↔ i < ndofs ∧ ¬(K.getD i []).getD i 0 = 0 := by
  simp only [ilist, List.mem_filter, List.mem_range, decide_eq_true_eq,
    mem_faileds_iff]
  constructor
  · rintro ⟨hi, hni⟩
    exact ⟨hi, fun hz => hni ⟨hi, hz⟩⟩
  · rintro ⟨hi, hnz⟩
    exact ⟨hi, fun hm => hnz hm.2⟩

theorem nodup_ilist (K : List (List ℚ)) (ndofs : ℕ) : (ilist K ndofs).Nodup :=
  (List.nodup_range ndofs).filter _

/-- C1: when the direct solve of the free-DOF system fails and the diagonal contains an
exactly-zero entry, `Solver._solve` (with automatic recovery, the unconditional default)
identifies exactly the rows `i` with `K[i, i] == 0.0`, removes those rows/columns from
`K` and the matching entries from `F`, re-solves the reduced system (once), and returns
a full-length `U` in which every removed DOF is `0.0` and the entry at the `k`-th kept
row equals the `k`-th entry of the reduced solution. -/
theorem c1_solve_singularity_recovery
    (np_solve : List (List ℚ) → List ℚ → Option (List ℚ))
    (K : List (List ℚ)) (F : List ℚ) (dofs : List ℕ) (U2 : List ℚ)
    (hFlen : F.length = dofs.length)
    (hguard : ¬(F.headD 0 = 0 ∧ pyMax F = pyMin F))
    (hfail : np_solve K F = none)
    (hzero : ∃ i, i < dofs.length ∧ (K.getD i []).getD i 0 = 0)
    (hre : np_solve (reducedK K dofs.length) (reducedF K F dofs.length) = some U2)
    (hU2 : U2.length = (ilist K dofs.length).length) :
    ∃ U, solver_solve np_solve K F dofs = .ok U ∧
      U.length = F.length ∧
      (∀ i, i ∈ faileds K dofs.length ↔ i < dofs.length ∧ (K.getD i []).getD i 0 = 0) ∧
      (∀ a b, (ha : a < (ilist K dofs.length).length) → (hb : b < (ilist K dofs.length).length) →
        ((reducedK K dofs.length).getD a []).getD b 0 =
          (K.getD ((ilist K dofs.length).get ⟨a, ha⟩) []).getD ((ilist K dofs.length).get ⟨b, hb⟩) 0) ∧
      (∀ a, (ha : a < (ilist K dofs.length).length) →
        (reducedF K F dofs.length).getD a 0 = F.getD ((ilist K dofs.length).get ⟨a, ha⟩) 0) ∧
      (∀ i ∈ faileds K dofs.length, U.getD i 0 = 0) ∧
      (∀ k, (hk : k < (ilist K dofs.length).length) →
        U.getD ((ilist K dofs.length).get ⟨k, hk⟩) 0 = U2.getD k 0) := by
  refine ⟨setIndices (List.replicate F.length 0) (ilist K dofs.length) U2, ?_, ?_, ?_, ?_, ?_, ?_, ?_⟩
  · unfold solver_solve
    rw [if_neg hguard, hfail, hre]
  · rw [setIndices_length, List.length_replicate]
  · exact fun i => mem_faileds_iff K dofs.length i
  · intro a b ha hb
    rw [reducedK, getD_map _ _ a ha, getD_map _ _ b hb]
  · intro a ha
    rw [reducedF, getD_map _ _ a ha]
  · intro i hi
    have hni : i ∉ ilist K dofs.length := by
      rw [mem_ilist_iff]
      rintro ⟨-, hnz⟩
      exact hnz ((mem_faileds_iff K dofs.length i).mp hi).2
    rw [setIndices_getD_not_mem _ _ _ _ hni, getD_replicate_zero]
  · intro k hk
    exact setIndices_getD_mem (ilist K dofs.length) _ U2 (nodup_ilist K dofs.length) hU2
      (fun j hj => by
        rw [List.length_replicate, hFlen]
        exact ((mem_ilist_iff K dofs.length j).mp hj).1) k hk

/-- Witness for C1: `K = [[2, 0], [0, 0]]`, `F = [4, 1]`, `dofs = [0, 1]`; the direct
solve fails, row 1 has the zero pivot, the reduced system `[[2]] u = [4]` is re-solved
to `[2]`, and the recovered full vector is `[2, 0]`. -/
theorem c1_solve_singularity_recovery_witness :
    (([(4 : ℚ), 1] : List ℚ).length = ([0, 1] : List ℕ).length ∧
      ¬(([(4 : ℚ), 1] : List ℚ).headD 0 = 0 ∧ pyMax [(4 : ℚ), 1] = pyMin [(4 : ℚ), 1]) ∧
      (fun (Km : List (List ℚ)) (_ : List ℚ) =>
        if Km.length = 1 then some [(2 : ℚ)] else none) [[(2 : ℚ), 0], [0, 0]] [4, 1] = none ∧
      (∃ i, i < ([0, 1] : List ℕ).length ∧
        (([[(2 : ℚ), 0], [0, 0]] : List (List ℚ)).getD i []).getD i 0 = 0) ∧
      ([(2 : ℚ)] : List ℚ).length = (ilist [[(2 : ℚ), 0], [0, 0]] 2).length) ∧
    ∃ U, solver_solve
        (fun (Km : List (List ℚ)) (_ : List ℚ) =>
          if Km.length = 1 then some [(2 : ℚ)] else none)
        [[(2 : ℚ), 0], [0, 0]] [4, 1] [0, 1] = .ok U ∧
      U.length = ([(4 : ℚ), 1] : List ℚ).length ∧
      (∀ i, i ∈ faileds [[(2 : ℚ), 0], [0, 0]] 2 ↔ i < 2 ∧
        (([[(2 : ℚ), 0], [0, 0]] : List (List ℚ)).getD i []).getD i 0 = 0) ∧
      (∀ a b, (ha : a < (ilist [[(2 : ℚ), 0], [0, 0]] 2).length) →
          (hb : b < (ilist [[(2 : ℚ), 0], [0, 0]] 2).length) →
        ((reducedK [[(2 : ℚ), 0], [0, 0]] 2).getD a []).getD b 0 =
          (([[(2 : ℚ), 0], [0, 0]] : List (List ℚ)).getD
              ((ilist [[(2 : ℚ), 0], [0, 0]] 2).get ⟨a, ha⟩) []).getD
            ((ilist [[(2 : ℚ), 0], [0, 0]] 2).get ⟨b, hb⟩) 0) ∧
      (∀ a, (ha : a < (ilist [[(2 : ℚ), 0], [0, 0]] 2).length) →
        (reducedF [[(2 : ℚ), 0], [0, 0]] [4, 1] 2).getD a 0 =
          ([(4 : ℚ), 1] : List ℚ).getD ((ilist [[(2 : ℚ), 0], [0, 0]] 2).get ⟨a, ha⟩) 0) ∧
      (∀ i ∈ faileds [[(2 : ℚ), 0], [0, 0]] 2, U.getD i 0 = 0) ∧
      (∀ k, (hk : k < (ilist [[(2 : ℚ), 0], [0, 0]] 2).length) →
        U.getD ((ilist [[(2 : ℚ), 0], [0, 0]] 2).get ⟨k, hk⟩) 0 = ([(2 : ℚ)] : List ℚ).getD k 0) :=
  ⟨⟨by decide, by decide, by decide, ⟨1, by decide, by decide⟩, by decide⟩,
    c1_solve_singularity_recovery _ [[(2 : ℚ), 0], [0, 0]] [4, 1] [0, 1] [(2 : ℚ)]
      (by decide) (by decide) (by decide) ⟨1, by decide, by decide⟩ (by decide) (by decide)⟩

/-! ## Embedding of the solution reconstruction of `Solver.run_sol_101`
(solver.py lines 658-671; `run_sol_103` lines 594-603 are identical) -/

/-- Modelled from the spec: `remove_dofs` is imported from
`pyNastran.bdf.dev_vectorized.solver.utils`, which is not among the sampled sources;
per the spec it removes the constrained index set from the full DOF set, and the
caller immediately sorts the result (`dofsA.sort()`), giving
`free = complement(s)` in the original (ascending) DOF order.  Filtering the sorted
range by non-membership yields exactly that sorted complement. -/
def free_dofs (n : ℕ) (iUs : List ℕ) : List ℕ :=
  (List.range n).filter (fun i => decide (i ∉ iUs))

/-- The reconstruction of the full solution vector in `run_sol_101`:
`U = zeros(n, 'float64')`, then `for (i, iu) in enumerate(self.iUs): U[iu] = self.Us[i]`,
then `for (i, iu) in enumerate(dofsA): U[iu] = Ua[i]`. -/
def reconstructU (n : ℕ) (iUs : List ℕ) (Us : List ℚ) (Ua : List ℚ) : List ℚ :=
  setIndices (setIndices (List.replicate n 0) iUs Us) (free_dofs n iUs) Ua

theorem mem_free_dofs_iff (n : ℕ) (iUs : List ℕ) (i : ℕ) :
    i ∈ free_dofs n iUs ↔ i < n ∧ i ∉ iUs := by
  simp [free_dofs, List.mem_filter, List.mem_range]

theorem nodup_free_dofs (n : ℕ) (iUs : List ℕ) : (free_dofs n iUs).Nodup :=
  (List.nodup_range n).filter _

theorem getD_eq_get_q (l : List ℚ) (k : ℕ) (h : k < l.length) :
    l.getD k 0 = l.get ⟨k, h⟩ := by
  simp [List.getD, List.getElem?_eq_getElem h]

/-- C2: the reconstructed solution vector writes every index in `[0, n)` exactly once
(the write-target sequence `iUs ++ free` is a permutation of `range n`), returns the
supplied SPC value at every constrained index (round-trip), and restricted to the
complement of `iUs` in the original DOF order equals the solved `Ua`. -/
theorem c2_reconstruction_exact
    (n : ℕ) (iUs : List ℕ) (Us : List ℚ) (Ua : List ℚ)
    (hnd : iUs.Nodup) (hb : ∀ i ∈ iUs, i < n)
    (hUs : Us.length = iUs.length)
    (hUa : Ua.length = (free_dofs n iUs).length) :
    (iUs ++ free_dofs n iUs).Perm (List.range n) ∧
    (∀ k, (hk : k < iUs.length) →
      (reconstructU n iUs Us Ua).getD (iUs.get ⟨k, hk⟩) 0 = Us.getD k 0) ∧
    (free_dofs n iUs).map (fun i => (reconstructU n iUs Us Ua).getD i 0) = Ua := by
  refine ⟨?_, ?_, ?_⟩
  · have hnd' : (iUs ++ free_dofs n iUs).Nodup := by
      rw [List.nodup_append]
      refine ⟨hnd, nodup_free_dofs n iUs, ?_⟩
      intro a ha hfa
      exact ((mem_free_dofs_iff n iUs a).mp hfa).2 ha
    rw [List.perm_ext_iff_of_nodup hnd' (List.nodup_range n)]
    intro a
    simp only [List.mem_append, mem_free_dofs_iff, List.mem_range]
    constructor
    · rintro (ha | ⟨ha, -⟩)
      · exact hb a ha
      · exact ha
    · intro ha
      by_cases hm : a ∈ iUs
      · exact Or.inl hm
      · exact Or.inr ⟨ha, hm⟩
  · intro k hk
    have hmem : iUs.get ⟨k, hk⟩ ∈ iUs := List.get_mem iUs k hk
    have hnf : iUs.get ⟨k, hk⟩ ∉ free_dofs n iUs := by
      rw [mem_free_dofs_iff]
      rintro ⟨-, hni⟩
      exact hni hmem
    rw [reconstructU, setIndices_getD_not_mem _ _ _ _ hnf]
    exact setIndices_getD_mem iUs _ Us hnd hUs
      (fun j hj => by rw [List.length_replicate]; exact hb j hj) k hk
  · have hlen : ((free_dofs n iUs).map
        (fun i => (reconstructU n iUs Us Ua).getD i 0)).length = Ua.length := by
      rw [List.length_map, hUa]
    apply List.ext_getElem hlen
    intro k h1 h2
    have hk : k < (free_dofs n iUs).length := by simpa using h1
    rw [List.getElem_map]
    have := setIndices_getD_mem (free_dofs n iUs)
      (setIndices (List.replicate n 0) iUs Us) Ua (nodup_free_dofs n iUs) hUa
      (fun j hj => by
        rw [setIndices_length, List.length_replicate]
        exact ((mem_free_dofs_iff n iUs j).mp hj).1) k hk
    rw [show (free_dofs n iUs).get ⟨k, hk⟩ = (free_dofs n iUs)[k] from rfl] at this
    unfold reconstructU
    rw [this, getD_eq_get_q Ua k h2]
    rfl

/-- Witness for C2 at `n = 4`, `iUs = [1, 3]`, `Us = [5, 7]`, `Ua = [9, 11]`
(so `U = [9, 5, 11, 7]`). -/
theorem c2_reconstruction_exact_witness :
    (([1, 3] : List ℕ).Nodup ∧ (∀ i ∈ ([1, 3] : List ℕ), i < 4) ∧
      ([(5 : ℚ), 7] : List ℚ).length = ([1, 3] : List ℕ).length ∧
      ([(9 : ℚ), 11] : List ℚ).length = (free_dofs 4 [1, 3]).length) ∧
    ((([1, 3] : List ℕ) ++ free_dofs 4 [1, 3]).Perm (List.range 4) ∧
    (∀ k, (hk : k < ([1, 3] : List ℕ).length) →
      (reconstructU 4 [1, 3] [5, 7] [9, 11]).getD (([1, 3] : List ℕ).get ⟨k, hk⟩) 0 =
        ([(5 : ℚ), 7] : List ℚ).getD k 0) ∧
    (free_dofs 4 [1, 3]).map (fun i => (reconstructU 4 [1, 3] [5, 7] [9, 11]).getD i 0) =
      [(9 : ℚ), 11]) :=
  ⟨⟨by decide, by decide, by decide, by decide⟩,
    c2_reconstruction_exact 4 [1, 3] [5, 7] [9, 11]
      (by decide) (by decide) (by decide) (by decide)⟩

/-! ## Embedding of `Solver.build_nid_component_to_id` (solver.py lines 481-527) -/

/-- A grid-point record: node id, packed permanent-constraint field `ps`
(`-1` meaning none), and reference coordinate system `cd`. -/
structure GridPoint where
  nid : ℕ
  ps : ℤ
  cd : ℕ
deriving DecidableEq, Repr

/-- In the source: `cd = set(model.grid.cd); if cd == 0: raise NotImplementedError(...)`.
In Python a `set` never compares equal to the integer `0`, so this test is `False` for
every model and the guard can never fire; embedded faithfully as the constant `false`. -/
def cd_set_eq_zero (cds : List ℕ) : Bool := false

/-- The `while ps > 0` digit loop: each decimal digit `psi` of the packed field
contributes the DOF index `i + psi - 1`, least-significant digit first. -/
def psLoop (i : ℕ) (ps : ℕ) : List ℕ :=
  if h : ps = 0 then [] else (i + ps % 10 - 1) :: psLoop i (ps / 10)
termination_by ps
decreasing_by exact Nat.div_lt_self (Nat.pos_of_ne_zero h) (by norm_num)

/-- The grid-point entries of `nidComponentToID`: each grid point in insertion order
receives keys `(nid, 1) .. (nid, 6)` bound to six consecutive indices starting at the
running counter `i`, which then advances by 6. -/
def gridEntries (grids : List GridPoint) (i : ℕ) : List ((ℕ × ℕ) × ℕ) :=
  match grids with
  | [] => []
  | g :: rest =>
    ((g.nid, 1), i) :: ((g.nid, 2), i + 1) :: ((g.nid, 3), i + 2) ::
    ((g.nid, 4), i + 3) :: ((g.nid, 5), i + 4) :: ((g.nid, 6), i + 5) ::
    gridEntries rest (i + 6)

/-- The `iUsg` accumulation: every grid point with `ps > -1` contributes the digit
loop indices at its starting counter. -/
def gridUsg (grids : List GridPoint) (i : ℕ) : List ℕ :=
  match grids with
  | [] => []
  | g :: rest =>
    (if g.ps > -1 then psLoop i g.ps.toNat else []) ++ gridUsg rest (i + 6)

/-- The scalar-point entries: one key `(nid, 1)` per scalar point, one index each.
The source iterates `sorted(model.spoint.spoint)` (a set); the iteration sequence of
distinct ids is the input list here. -/
def spointEntries (spoints : List ℕ) (i : ℕ) : List ((ℕ × ℕ) × ℕ) :=
  match spoints with
  | [] => []
  | s :: rest => ((s, 1), i) :: spointEntries rest (i + 1)

/-- Embedding of `Solver.build_nid_component_to_id`.  The Python dict is modelled as an
association list whose first-match `lookup` agrees with the dict whenever the written
keys are distinct.  Returns `(nidComponentToID, iUsg, i)`; `assert i > 0, 'no DOFs'`
is the error branch.  The dead coordinate-system guard is kept as in the source. -/
def build_nid_component_to_id (grids : List GridPoint) (spoints : List ℕ) :
    Except String (List ((ℕ × ℕ) × ℕ) × List ℕ × ℕ) :=
  if grids.length ≠ 0 ∧ cd_set_eq_zero (grids.map (·.cd)) = true then
    .error "Set cd=0; cd=%s is not supported."
  else
    let entries := gridEntries grids 0 ++ spointEntries spoints (6 * grids.length)
    let i := 6 * grids.length + spoints.length
    if 0 < i then .ok (entries, gridUsg grids 0, i) else .error "no DOFs"

theorem gridEntries_values (grids : List GridPoint) (i : ℕ) :
    (gridEntries grids i).map (·.2) = List.range' i (6 * grids.length) := by
  induction grids generalizing i with
  | nil => rfl
  | cons g rest ih =>
    show i :: (i + 1) :: (i + 2) :: (i + 3) :: (i + 4) :: (i + 5) ::
      (gridEntries rest (i + 6)).map (·.2) = _
    rw [ih (i + 6)]
    have h6 : 6 * (rest.length + 1) = 6 * rest.length + 1 + 1 + 1 + 1 + 1 + 1 := by ring
    simp only [List.length_cons, h6, List.range'_succ]

theorem spointEntries_values (spoints : List ℕ) (i : ℕ) :
    (spointEntries spoints i).map (·.2) = List.range' i spoints.length := by
  induction spoints generalizing i with
  | nil => rfl
  | cons s rest ih =>
    show i :: (spointEntries rest (i + 1)).map (·.2) = _
    rw [ih (i + 1)]
    simp [List.range'_succ]

theorem lookup_cons_ne {β : Type} (k : ℕ × ℕ) (v : β) (l : List ((ℕ × ℕ) × β)) (a : ℕ × ℕ)
    (h : a ≠ k) : ((k, v) :: l).lookup a = l.lookup a := by
  simp [List.lookup, beq_eq_false_iff_ne.mpr h]

theorem lookup_cons_self {β : Type} (k : ℕ × ℕ) (v : β) (l : List ((ℕ × ℕ) × β)) :
    ((k, v) :: l).lookup k = some v := by
  simp [List.lookup]

theorem lookup_append_of_none {β : Type} (l₁ l₂ : List ((ℕ × ℕ) × β)) (a : ℕ × ℕ)
    (h : l₁.lookup a = none) : (l₁ ++ l₂).lookup a = l₂.lookup a := by
  induction l₁ with
  | nil => rfl
  | cons p rest ih =>
    obtain ⟨k, v⟩ := p
    by_cases hk : a = k
    · rw [hk, lookup_cons_self] at h
      exact absurd h (by simp)
    · rw [List.cons_append, lookup_cons_ne _ _ _ _ hk]
      rw [lookup_cons_ne _ _ _ _ hk] at h
      exact ih h

theorem gridEntries_lookup_not_mem (grids : List GridPoint) (i : ℕ) (s : ℕ) (c : ℕ)
    (h : s ∉ grids.map (·.nid)) : (gridEntries grids i).lookup (s, c) = none := by
  induction grids generalizing i with
  | nil => rfl
  | cons g rest ih =>
    have hs : s ≠ g.nid := fun he => h (by simp [he])
    have hne : ∀ c' : ℕ, ((s, c) : ℕ × ℕ) ≠ (g.nid, c') :=
      fun c' he => hs (congrArg Prod.fst he)
    show List.lookup _ (((g.nid, 1), i) :: ((g.nid, 2), i + 1) :: ((g.nid, 3), i + 2) ::
      ((g.nid, 4), i + 3) :: ((g.nid, 5), i + 4) :: ((g.nid, 6), i + 5) ::
      gridEntries rest (i + 6)) = none
    rw [lookup_cons_ne _ _ _ _ (hne 1), lookup_cons_ne _ _ _ _ (hne 2),
      lookup_cons_ne _ _ _ _ (hne 3), lookup_cons_ne _ _ _ _ (hne 4),
      lookup_cons_ne _ _ _ _ (hne 5), lookup_cons_ne _ _ _ _ (hne 6)]
    exact ih (i + 6) (fun hm => h (by simp at hm ⊢; exact Or.inr hm))

theorem gridEntries_lookup (grids : List GridPoint) (i : ℕ)
    (hnd : (grids.map (·.nid)).Nodup) (g : ℕ) (hg : g < grids.length) (c : ℕ)
    (hc1 : 1 ≤ c) (hc6 : c ≤ 6) :
    (gridEntries grids i).lookup ((grids.get ⟨g, hg⟩).nid, c) =
      some (i + 6 * g + (c - 1)) := by
  induction grids generalizing i g with
  | nil => exact absurd hg (by simp)
  | cons g0 rest ih =>
    cases g with
    | zero =>
      have hlk : ∀ c₁ c₂ : ℕ, c₁ ≠ c₂ → ((g0.nid, c₁) : ℕ × ℕ) ≠ (g0.nid, c₂) :=
        fun c₁ c₂ hne he => hne (congrArg Prod.snd he)
      show List.lookup (g0.nid, c)
        (((g0.nid, 1), i) :: ((g0.nid, 2), i + 1) :: ((g0.nid, 3), i + 2) ::
          ((g0.nid, 4), i + 3) :: ((g0.nid, 5), i + 4) :: ((g0.nid, 6), i + 5) ::
          gridEntries rest (i + 6)) = some (i + 6 * 0 + (c - 1))
      interval_cases c
      · rw [lookup_cons_self]
        norm_num
      · rw [lookup_cons_ne _ _ _ _ (hlk 2 1 (by decide)), lookup_cons_self]
      · rw [lookup_cons_ne _ _ _ _ (hlk 3 1 (by decide)),
          lookup_cons_ne _ _ _ _ (hlk 3 2 (by decide)), lookup_cons_self]
      · rw [lookup_cons_ne _ _ _ _ (hlk 4 1 (by decide)),
          lookup_cons_ne _ _ _ _ (hlk 4 2 (by decide)),
          lookup_cons_ne _ _ _ _ (hlk 4 3 (by decide)), lookup_cons_self]
      · rw [lookup_cons_ne _ _ _ _ (hlk 5 1 (by decide)),
          lookup_cons_ne _ _ _ _ (hlk 5 2 (by decide)),
          lookup_cons_ne _ _ _ _ (hlk 5 3 (by decide)),
          lookup_cons_ne _ _ _ _ (hlk 5 4 (by decide)), lookup_cons_self]
      · rw [lookup_cons_ne _ _ _ _ (hlk 6 1 (by decide)),
          lookup_cons_ne _ _ _ _ (hlk 6 2 (by decide)),
          lookup_cons_ne _ _ _ _ (hlk 6 3 (by decide)),
          lookup_cons_ne _ _ _ _ (hlk 6 4 (by decide)),
          lookup_cons_ne _ _ _ _ (hlk 6 5 (by decide)), lookup_cons_self]
    | succ g' =>
      have hg' : g' < rest.length := by simpa using Nat.lt_of_succ_lt_succ hg
      have hmem : (rest.get ⟨g', hg'⟩).nid ∈ rest.map (·.nid) :=
        List.mem_map.mpr ⟨rest.get ⟨g', hg'⟩, List.get_mem rest g' hg', rfl⟩
      have hndc : (g0.nid :: rest.map (·.nid)).Nodup := by
        rw [List.map_cons] at hnd
        exact hnd
      have hs : (rest.get ⟨g', hg'⟩).nid ≠ g0.nid := by
        intro he
        exact (List.nodup_cons.mp hndc).1 (he ▸ hmem)
      have hne : ∀ c' : ℕ, (((rest.get ⟨g', hg'⟩).nid, c) : ℕ × ℕ) ≠ (g0.nid, c') :=
        fun c' he => hs (congrArg Prod.fst he)
      show List.lookup ((rest.get ⟨g', hg'⟩).nid, c)
        (((g0.nid, 1), i) :: ((g0.nid, 2), i + 1) :: ((g0.nid, 3), i + 2) ::
          ((g0.nid, 4), i + 3) :: ((g0.nid, 5), i + 4) :: ((g0.nid, 6), i + 5) ::
          gridEntries rest (i + 6)) = _
      rw [lookup_cons_ne _ _ _ _ (hne 1), lookup_cons_ne _ _ _ _ (hne 2),
        lookup_cons_ne _ _ _ _ (hne 3), lookup_cons_ne _ _ _ _ (hne 4),
        lookup_cons_ne _ _ _ _ (hne 5), lookup_cons_ne _ _ _ _ (hne 6)]
      rw [ih (i + 6) (List.nodup_cons.mp hndc).2 g' hg']
      congr 1
      ring

theorem spointEntries_lookup (spoints : List ℕ) (i : ℕ) (hnd : spoints.Nodup)
    (p : ℕ) (hp : p < spoints.length) :
    (spointEntries spoints i).lookup (spoints.get ⟨p, hp⟩, 1) = some (i + p) := by
  induction spoints generalizing i p with
  | nil => exact absurd hp (by simp)
  | cons s rest ih =>
    cases p with
    | zero =>
      show List.lookup (s, 1) (((s, 1), i) :: spointEntries rest (i + 1)) = some (i + 0)
      rw [lookup_cons_self]
      norm_num
    | succ p' =>
      have hp' : p' < rest.length := by simpa using Nat.lt_of_succ_lt_succ hp
      have hs : rest.get ⟨p', hp'⟩ ≠ s := by
        intro he
        exact (List.nodup_cons.mp hnd).1 (he ▸ List.get_mem rest p' hp')
      show List.lookup (rest.get ⟨p', hp'⟩, 1) (((s, 1), i) :: spointEntries rest (i + 1)) = _
      rw [lookup_cons_ne _ _ _ _ (fun he => hs (congrArg Prod.fst he))]
      rw [ih (i + 1) (List.nodup_cons.mp hnd).2 p' hp']
      congr 1
      ring

theorem lookup_append_of_some {β : Type} (l₁ l₂ : List ((ℕ × ℕ) × β)) (a : ℕ × ℕ) (v : β)
    (h : l₁.lookup a = some v) : (l₁ ++ l₂).lookup a = some v := by
  induction l₁ with
  | nil => exact absurd h (by simp)
  | cons p rest ih =>
    obtain ⟨k, w⟩ := p
    by_cases hk : a = k
    · rw [hk, lookup_cons_self] at h
      rw [List.cons_append, hk, lookup_cons_self]
      exact h
    · rw [List.cons_append, lookup_cons_ne _ _ _ _ hk]
      rw [lookup_cons_ne _ _ _ _ hk] at h
      exact ih h

/-- C3: for distinct grid-point node ids and distinct scalar points (disjoint from the
grid ids), the DOF indexer succeeds with total `N = 6 * n_grid + n_scalar_points`;
its values, in insertion order, are exactly `0 .. N-1` (no gaps, no duplicates); the
grid point at position `g` holds indices `6g .. 6g+5` for components `1..6`, and the
scalar point at position `p` holds index `6 * n_grid + p`. -/
theorem c3_dof_indexer_contiguous
    (grids : List GridPoint) (spoints : List ℕ)
    (hgnd : (grids.map (·.nid)).Nodup) (hsnd : spoints.Nodup)
    (hdisj : ∀ s ∈ spoints, s ∉ grids.map (·.nid))
    (hpos : 0 < 6 * grids.length + spoints.length) :
    ∃ m usg, build_nid_component_to_id grids spoints =
        .ok (m, usg, 6 * grids.length + spoints.length) ∧
      m.map (·.2) = List.range (6 * grids.length + spoints.length) ∧
      (∀ g, (hg : g < grids.length) → ∀ c, 1 ≤ c → c ≤ 6 →
        m.lookup ((grids.get ⟨g, hg⟩).nid, c) = some (6 * g + (c - 1))) ∧
      (∀ p, (hp : p < spoints.length) →
        m.lookup (spoints.get ⟨p, hp⟩, 1) = some (6 * grids.length + p)) := by
  refine ⟨gridEntries grids 0 ++ spointEntries spoints (6 * grids.length),
    gridUsg grids 0, ?_, ?_, ?_, ?_⟩
  · unfold build_nid_component_to_id
    rw [if_neg (by simp [cd_set_eq_zero]), if_pos hpos]
  · rw [List.map_append, gridEntries_values, spointEntries_values, List.range_eq_range']
    have h := List.range'_append_1 0 (6 * grids.length) spoints.length
    rw [Nat.zero_add] at h
    rw [h]
    congr 1
    ring
  · intro g hg c hc1 hc6
    apply lookup_append_of_some
    have := gridEntries_lookup grids 0 hgnd g hg c hc1 hc6
    rw [this]
    norm_num
  · intro p hp
    rw [lookup_append_of_none _ _ _
      (gridEntries_lookup_not_mem grids 0 _ 1 (hdisj _ (List.get_mem spoints p hp)))]
    exact spointEntries_lookup spoints (6 * grids.length) hsnd p hp

/-- Witness for C3: two grid points (ids 1 and 5) and one scalar point (id 9);
`N = 13`, values `0..12`, grid lookups at `6g + c - 1`, scalar lookup at 12. -/
theorem c3_dof_indexer_contiguous_witness :
    ((([⟨1, -1, 0⟩, ⟨5, -1, 0⟩] : List GridPoint).map (·.nid)).Nodup ∧
      ([9] : List ℕ).Nodup ∧
      (∀ s ∈ ([9] : List ℕ), s ∉ ([⟨1, -1, 0⟩, ⟨5, -1, 0⟩] : List GridPoint).map (·.nid)) ∧
      0 < 6 * ([⟨1, -1, 0⟩, ⟨5, -1, 0⟩] : List GridPoint).length + ([9] : List ℕ).length) ∧
    (∃ m usg, build_nid_component_to_id [⟨1, -1, 0⟩, ⟨5, -1, 0⟩] [9] =
        .ok (m, usg, 6 * ([⟨1, -1, 0⟩, ⟨5, -1, 0⟩] : List GridPoint).length + ([9] : List ℕ).length) ∧
      m.map (·.2) = List.range (6 * ([⟨1, -1, 0⟩, ⟨5, -1, 0⟩] : List GridPoint).length + ([9] : List ℕ).length) ∧
      (∀ g, (hg : g < ([⟨1, -1, 0⟩, ⟨5, -1, 0⟩] : List GridPoint).length) → ∀ c, 1 ≤ c → c ≤ 6 →
        m.lookup ((([⟨1, -1, 0⟩, ⟨5, -1, 0⟩] : List GridPoint).get ⟨g, hg⟩).nid, c) =
          some (6 * g + (c - 1))) ∧
      (∀ p, (hp : p < ([9] : List ℕ).length) →
        m.lookup (([9] : List ℕ).get ⟨p, hp⟩, 1) =
          some (6 * ([⟨1, -1, 0⟩, ⟨5, -1, 0⟩] : List GridPoint).length + p))) :=
  ⟨⟨by decide, by decide, by decide, by decide⟩,
    c3_dof_indexer_contiguous [⟨1, -1, 0⟩, ⟨5, -1, 0⟩] [9]
      (by decide) (by decide) (by decide) (by decide)⟩

/-- C8 (code evidence): a model whose only grid point references the non-basic
coordinate system `cd = 5` is accepted by `build_nid_component_to_id` — the source's
guard `cd = set(model.grid.cd); if cd == 0: raise NotImplementedError(...)` compares a
Python `set` with the integer `0`, which is `False` for every model, so the
unsupported-coordinate-system rejection required by the claim can never happen. -/
theorem c8_nonbasic_cd_accepted :
    build_nid_component_to_id [⟨1, -1, 5⟩] [] =
      .ok ([((1, 1), 0), ((1, 2), 1), ((1, 3), 2), ((1, 4), 3), ((1, 5), 4), ((1, 6), 5)],
        [], 6) := rfl

/-! ## Embedding of `Solver.add_stiffness` / `Solver.add_mass` (solver.py lines 1592-1615) -/

/-- One in-place accumulation `M[a, b] += v` on a dense matrix viewed as an index function. -/
def accum (M : ℕ → ℕ → ℚ) (a b : ℕ) (v : ℚ) : ℕ → ℕ → ℚ :=
  fun x y => if x = a ∧ y = b then M x y + v else M x y

/-- The nested loop `for i, dof1 in enumerate(dofs): for j, dof2 in enumerate(dofs)`
visits the index pairs in row-major order. -/
def loopPairs (n : ℕ) : List (ℕ × ℕ) :=
  (List.range n).product (List.range n)

/-- The body of the `add_stiffness` double loop:
`if abs(K[i, j]) > 0.0: Kgg[dof1, dof2] += K[i, j]`. -/
def stiff_step (K : ℕ → ℕ → ℚ) (dofs : List ℕ) (M : ℕ → ℕ → ℚ) (p : ℕ × ℕ) : ℕ → ℕ → ℚ :=
  if |K p.1 p.2| > 0 then accum M (dofs.getD p.1 0) (dofs.getD p.2 0) (K p.1 p.2) else M

/-- Embedding of `Solver.add_stiffness`: scatter-add of the local matrix `K` into the
global matrix at the DOF indices `dofs` (exact zeros are skipped, which cannot change
the result). -/
def add_stiffness (K : ℕ → ℕ → ℚ) (dofs : List ℕ) (Kgg : ℕ → ℕ → ℚ) : ℕ → ℕ → ℚ :=
  (loopPairs dofs.length).foldl (stiff_step K dofs) Kgg

/-- The body of the `add_mass` double loop, which accumulates into both `Mgg` and
`Mgg_sparse`. -/
def mass_step (Mloc : ℕ → ℕ → ℚ) (dofs : List ℕ)
    (Ms : (ℕ → ℕ → ℚ) × (ℕ → ℕ → ℚ)) (p : ℕ × ℕ) : (ℕ → ℕ → ℚ) × (ℕ → ℕ → ℚ) :=
  if |Mloc p.1 p.2| > 0 then
    (accum Ms.1 (dofs.getD p.1 0) (dofs.getD p.2 0) (Mloc p.1 p.2),
     accum Ms.2 (dofs.getD p.1 0) (dofs.getD p.2 0) (Mloc p.1 p.2))
  else Ms

/-- Embedding of `Solver.add_mass` acting on the pair `(Mgg, Mgg_sparse)`. -/
def add_mass (Mloc : ℕ → ℕ → ℚ) (dofs : List ℕ)
    (Ms : (ℕ → ℕ → ℚ) × (ℕ → ℕ → ℚ)) : (ℕ → ℕ → ℚ) × (ℕ → ℕ → ℚ) :=
  (loopPairs dofs.length).foldl (mass_step Mloc dofs) Ms

/-- The net contribution of loop iteration `p` to entry `(a, b)`. -/
def contrib (K : ℕ → ℕ → ℚ) (dofs : List ℕ) (p : ℕ × ℕ) (a b : ℕ) : ℚ :=
  if dofs.getD p.1 0 = a ∧ dofs.getD p.2 0 = b then K p.1 p.2 else 0

theorem stiff_step_getD (K : ℕ → ℕ → ℚ) (dofs : List ℕ) (M : ℕ → ℕ → ℚ) (p : ℕ × ℕ)
    (a b : ℕ) : stiff_step K dofs M p a b = M a b + contrib K dofs p a b := by
  unfold stiff_step contrib accum
  by_cases hz : |K p.1 p.2| > 0
  · rw [if_pos hz]
    by_cases hm : dofs.getD p.1 0 = a ∧ dofs.getD p.2 0 = b
    · have hm' : a = dofs.getD p.1 0 ∧ b = dofs.getD p.2 0 := ⟨hm.1.symm, hm.2.symm⟩
      simp only [if_pos hm, if_pos hm']
    · have hm' : ¬(a = dofs.getD p.1 0 ∧ b = dofs.getD p.2 0) := by
        intro hc
        exact hm ⟨hc.1.symm, hc.2.symm⟩
      simp only [if_neg hm, if_neg hm', add_zero]
  · have hzero : K p.1 p.2 = 0 := by
      by_contra hne
      exact hz (abs_pos.mpr hne)
    rw [if_neg hz]
    by_cases hm : dofs.getD p.1 0 = a ∧ dofs.getD p.2 0 = b
    · rw [if_pos hm, hzero, add_zero]
    · rw [if_neg hm, add_zero]

theorem foldl_stiff_step (K : ℕ → ℕ → ℚ) (dofs : List ℕ) (ps : List (ℕ × ℕ))
    (M : ℕ → ℕ → ℚ) (a b : ℕ) :
    ps.foldl (stiff_step K dofs) M a b =
      M a b + (ps.map (fun p => contrib K dofs p a b)).sum := by
  induction ps generalizing M with
  | nil => simp
  | cons p rest ih =>
    rw [List.foldl_cons, ih, stiff_step_getD, List.map_cons, List.sum_cons, add_assoc]

theorem mem_loopPairs (n : ℕ) (p : ℕ × ℕ) :
    p ∈ loopPairs n ↔ p.1 < n ∧ p.2 < n := by
  obtain ⟨x, y⟩ := p
  simp [loopPairs, List.mem_product, List.mem_range]

theorem nodup_loopPairs (n : ℕ) : (loopPairs n).Nodup :=
  (List.nodup_range n).product (List.nodup_range n)

theorem loopPairs_swap_sum (n : ℕ) (f : ℕ × ℕ → ℚ) :
    ((loopPairs n).map (fun p => f (p.2, p.1))).sum = ((loopPairs n).map f).sum := by
  have hswap_inj : Function.Injective (fun p : ℕ × ℕ => (p.2, p.1)) := by
    intro p q h
    obtain ⟨a, b⟩ := p
    obtain ⟨c, d⟩ := q
    simp only [Prod.mk.injEq] at h
    exact Prod.ext h.2 h.1
  have hperm : ((loopPairs n).map (fun p : ℕ × ℕ => (p.2, p.1))).Perm (loopPairs n) := by
    rw [List.perm_ext_iff_of_nodup ((nodup_loopPairs n).map hswap_inj) (nodup_loopPairs n)]
    intro q
    simp only [List.mem_map, mem_loopPairs]
    constructor
    · rintro ⟨p, hp, rfl⟩
      exact ⟨hp.2, hp.1⟩
    · intro hq
      exact ⟨(q.2, q.1), ⟨hq.2, hq.1⟩, rfl⟩
  calc ((loopPairs n).map (fun p => f (p.2, p.1))).sum
      = (((loopPairs n).map (fun p : ℕ × ℕ => (p.2, p.1))).map f).sum := by
        rw [List.map_map]
        rfl
    _ = ((loopPairs n).map f).sum := (hperm.map f).sum_eq

theorem add_stiffness_symm (K : ℕ → ℕ → ℚ) (dofs : List ℕ) (Kgg : ℕ → ℕ → ℚ)
    (hK : ∀ i, i < dofs.length → ∀ j, j < dofs.length → K i j = K j i)
    (hG : ∀ a b, Kgg a b = Kgg b a) (a b : ℕ) :
    add_stiffness K dofs Kgg a b = add_stiffness K dofs Kgg b a := by
  unfold add_stiffness
  rw [foldl_stiff_step, foldl_stiff_step, hG a b]
  congr 1
  have hpt : ∀ p ∈ loopPairs dofs.length,
      contrib K dofs p a b = contrib K dofs (p.2, p.1) b a := by
    intro p hp
    obtain ⟨hp1, hp2⟩ := (mem_loopPairs dofs.length p).mp hp
    unfold contrib
    by_cases hm : dofs.getD p.1 0 = a ∧ dofs.getD p.2 0 = b
    · rw [if_pos hm, if_pos ⟨hm.2, hm.1⟩]
      exact hK p.1 hp1 p.2 hp2
    · rw [if_neg hm, if_neg (fun hc => hm ⟨hc.2, hc.1⟩)]
  rw [List.map_congr_left hpt]
  exact loopPairs_swap_sum dofs.length (fun p => contrib K dofs p b a)

/-- The assembly loop of `assemble_global_stiffness_matrix`: `Kgg` starts at
`zeros((n, n))` and each element contribution `(K_local, dofs)` is scattered in
by `add_stiffness`. -/
def assemble_stiffness (contribs : List ((ℕ → ℕ → ℚ) × List ℕ)) : ℕ → ℕ → ℚ :=
  contribs.foldl (fun M c => add_stiffness c.1 c.2 M) (fun _ _ => 0)

/-- The assembly loop of `assemble_global_mass_matrix`: `Mgg` and `Mgg_sparse` start
at zero and each element contribution is scattered into both by `add_mass`. -/
def assemble_mass (contribs : List ((ℕ → ℕ → ℚ) × List ℕ)) :
    (ℕ → ℕ → ℚ) × (ℕ → ℕ → ℚ) :=
  contribs.foldl (fun Ms c => add_mass c.1 c.2 Ms) (fun _ _ => 0, fun _ _ => 0)

theorem mass_step_eq (Mloc : ℕ → ℕ → ℚ) (dofs : List ℕ)
    (Ms : (ℕ → ℕ → ℚ) × (ℕ → ℕ → ℚ)) (p : ℕ × ℕ) :
    mass_step Mloc dofs Ms p = (stiff_step Mloc dofs Ms.1 p, stiff_step Mloc dofs Ms.2 p) := by
  unfold mass_step stiff_step
  by_cases h : |Mloc p.1 p.2| > 0
  · rw [if_pos h, if_pos h, if_pos h]
  · rw [if_neg h, if_neg h, if_neg h]

theorem add_mass_eq (Mloc : ℕ → ℕ → ℚ) (dofs : List ℕ)
    (Ms : (ℕ → ℕ → ℚ) × (ℕ → ℕ → ℚ)) :
    add_mass Mloc dofs Ms = (add_stiffness Mloc dofs Ms.1, add_stiffness Mloc dofs Ms.2) := by
  unfold add_mass add_stiffness
  generalize loopPairs dofs.length = ps
  induction ps generalizing Ms with
  | nil => rfl
  | cons p rest ih =>
    rw [List.foldl_cons, List.foldl_cons, List.foldl_cons, ih, mass_step_eq]

/-- C5: after any sequence of scatter-adds of symmetric local matrices (symmetric on
the index square addressed by their DOF lists), the assembled global stiffness matrix
equals its transpose, and so do both copies of the assembled global mass matrix. -/
theorem c5_assembled_matrices_symmetric
    (kContribs mContribs : List ((ℕ → ℕ → ℚ) × List ℕ))
    (hk : ∀ c ∈ kContribs, ∀ i, i < c.2.length → ∀ j, j < c.2.length → c.1 i j = c.1 j i)
    (hm : ∀ c ∈ mContribs, ∀ i, i < c.2.length → ∀ j, j < c.2.length → c.1 i j = c.1 j i) :
    (∀ a b, assemble_stiffness kContribs a b = assemble_stiffness kContribs b a) ∧
    (∀ a b, (assemble_mass mContribs).1 a b = (assemble_mass mContribs).1 b a) ∧
    (∀ a b, (assemble_mass mContribs).2 a b = (assemble_mass mContribs).2 b a) := by
  have hstiff : ∀ (cs : List ((ℕ → ℕ → ℚ) × List ℕ)) (M : ℕ → ℕ → ℚ),
      (∀ c ∈ cs, ∀ i, i < c.2.length → ∀ j, j < c.2.length → c.1 i j = c.1 j i) →
      (∀ a b, M a b = M b a) →
      ∀ a b, cs.foldl (fun M c => add_stiffness c.1 c.2 M) M a b =
        cs.foldl (fun M c => add_stiffness c.1 c.2 M) M b a := by
    intro cs
    induction cs with
    | nil => intro M _ hM a b; exact hM a b
    | cons c rest ih =>
      intro M hcs hM a b
      rw [List.foldl_cons]
      exact ih (add_stiffness c.1 c.2 M)
        (fun d hd => hcs d (List.mem_cons_of_mem _ hd))
        (add_stiffness_symm c.1 c.2 M (hcs c (List.mem_cons_self c rest)) hM) a b
  have hpair : ∀ (cs : List ((ℕ → ℕ → ℚ) × List ℕ)) (Ms : (ℕ → ℕ → ℚ) × (ℕ → ℕ → ℚ)),
      cs.foldl (fun Ms c => add_mass c.1 c.2 Ms) Ms =
        (cs.foldl (fun M c => add_stiffness c.1 c.2 M) Ms.1,
         cs.foldl (fun M c => add_stiffness c.1 c.2 M) Ms.2) := by
    intro cs
    induction cs with
    | nil => intro Ms; rfl
    | cons c rest ih =>
      intro Ms
      rw [List.foldl_cons, List.foldl_cons, List.foldl_cons, ih, add_mass_eq]
  have hmass : assemble_mass mContribs =
      (mContribs.foldl (fun M c => add_stiffness c.1 c.2 M) (fun _ _ => 0),
       mContribs.foldl (fun M c => add_stiffness c.1 c.2 M) (fun _ _ => 0)) := by
    unfold assemble_mass
    exact hpair mContribs ((fun _ _ => 0), (fun _ _ => 0))
  refine ⟨?_, ?_, ?_⟩
  · exact hstiff kContribs (fun _ _ => 0) hk (fun _ _ => rfl)
  · rw [hmass]
    exact hstiff mContribs (fun _ _ => 0) hm (fun _ _ => rfl)
  · rw [hmass]
    exact hstiff mContribs (fun _ _ => 0) hm (fun _ _ => rfl)

/-- Witness for C5: one stiffness contribution and one mass contribution, each with
the symmetric local matrix `K(i, j) = i + j` over DOF lists `[3, 5]` and `[0, 2]`. -/
theorem c5_assembled_matrices_symmetric_witness :
    ((∀ c ∈ ([((fun i j => (i : ℚ) + j), [3, 5])] : List ((ℕ → ℕ → ℚ) × List ℕ)),
        ∀ i, i < c.2.length → ∀ j, j < c.2.length → c.1 i j = c.1 j i) ∧
      (∀ c ∈ ([((fun i j => (i : ℚ) + j), [0, 2])] : List ((ℕ → ℕ → ℚ) × List ℕ)),
        ∀ i, i < c.2.length → ∀ j, j < c.2.length → c.1 i j = c.1 j i)) ∧
    ((∀ a b, assemble_stiffness [((fun i j => (i : ℚ) + j), [3, 5])] a b =
        assemble_stiffness [((fun i j => (i : ℚ) + j), [3, 5])] b a) ∧
    (∀ a b, (assemble_mass [((fun i j => (i : ℚ) + j), [0, 2])]).1 a b =
        (assemble_mass [((fun i j => (i : ℚ) + j), [0, 2])]).1 b a) ∧
    (∀ a b, (assemble_mass [((fun i j => (i : ℚ) + j), [0, 2])]).2 a b =
        (assemble_mass [((fun i j => (i : ℚ) + j), [0, 2])]).2 b a)) := by
  have hsym : ∀ (dofs : List ℕ),
      ∀ c ∈ ([((fun i j => (i : ℚ) + j), dofs)] : List ((ℕ → ℕ → ℚ) × List ℕ)),
      ∀ i, i < c.2.length → ∀ j, j < c.2.length → c.1 i j = c.1 j i := by
    intro dofs c hc i _ j _
    rw [List.mem_singleton.mp hc]
    exact add_comm (i : ℚ) j
  exact ⟨⟨hsym [3, 5], hsym [0, 2]⟩,
    c5_assembled_matrices_symmetric _ _ (hsym [3, 5]) (hsym [0, 2])⟩

/-! ## Embedding of `Solver.build_dof_sets` (solver.py lines 1873-1938) -/

/-- The DOF-subset state of `Solver`: every `self.UX` / `self.iUX` (and `jU*` for the
MPC rows) list touched by `build_dof_sets`, all initialized to `[]` in `__init__`. -/
structure DofSets where
  Usb : List ℚ := []
  iUsb : List ℕ := []
  Usg : List ℚ := []
  iUsg : List ℕ := []
  Uc : List ℚ := []
  iUc : List ℕ := []
  Ulm : List ℚ := []
  iUlm : List ℕ := []
  Ur : List ℚ := []
  iUr : List ℕ := []
  Uq : List ℚ := []
  iUq : List ℕ := []
  Ue : List ℚ := []
  iUe : List ℕ := []
  Uo : List ℚ := []
  iUo : List ℕ := []
  Ump : List ℚ := []
  iUmp : List ℕ := []
  jUmp : List ℕ := []
  Umr : List ℚ := []
  iUmr : List ℕ := []
  jUmr : List ℕ := []
  Uk : List ℚ := []
  iUk : List ℕ := []
  Usa : List ℚ := []
  iUsa : List ℕ := []
  Uj : List ℚ := []
  iUj : List ℕ := []
  Us : List ℚ := []
  iUs : List ℕ := []
  Ul : List ℚ := []
  iUl : List ℕ := []
  Ut : List ℚ := []
  iUt : List ℕ := []
  Ua : List ℚ := []
  iUa : List ℕ := []
  Ud : List ℚ := []
  iUd : List ℕ := []
  Uf : List ℚ := []
  iUf : List ℕ := []
  Ufe : List ℚ := []
  iUfe : List ℕ := []
  Un : List ℚ := []
  iUn : List ℕ := []
  Une : List ℚ := []
  iUne : List ℕ := []
  Um : List ℚ := []
  iUm : List ℕ := []
  jUm : List ℕ := []
  Ug : List ℚ := []
  iUg : List ℕ := []
  Up : List ℚ := []
  iUp : List ℕ := []
  Uks : List ℚ := []
  iUks : List ℕ := []
  Ujs : List ℚ := []
  iUjs : List ℕ := []
  Ufr : List ℚ := []
  iUfr : List ℕ := []
  Uv : List ℚ := []
  iUv : List ℕ := []
deriving Repr

/-- Embedding of `Solver.build_dof_sets`, assignment by assignment in source order
(Python list `+` is concatenation; later assignments see the earlier ones, e.g.
`n = f + s` uses the `s` just recomputed). -/
def build_dof_sets (s : DofSets) : DofSets :=
  let s := { s with Us := s.Usb ++ s.Usg, iUs := s.iUsb ++ s.iUsg }
  let s := { s with Ul := s.Uc ++ s.Ulm, iUl := s.iUc ++ s.iUlm }
  let s := { s with Ut := s.Ul ++ s.Ur, iUt := s.iUl ++ s.iUr }
  let s := { s with Ua := s.Ut ++ s.Uq, iUa := s.iUt ++ s.iUq }
  let s := { s with Ud := s.Ua ++ s.Ue, iUd := s.iUa ++ s.iUe }
  let s := { s with Uf := s.Ua ++ s.Uo, iUf := s.iUa ++ s.iUo }
  let s := { s with Ufe := s.Uf ++ s.Ue, iUfe := s.iUf ++ s.iUe }
  let s := { s with Un := s.Uf ++ s.Us, iUn := s.iUf ++ s.iUs }
  let s := { s with Une := s.Un ++ s.Ue, iUne := s.iUn ++ s.iUe }
  let s := { s with Um := s.Ump ++ s.Umr, iUm := s.iUmp ++ s.iUmr,
                    jUm := s.jUmp ++ s.jUmr }
  let s := { s with Ug := s.Un ++ s.Um, iUg := s.iUn ++ s.iUm }
  let s := { s with Up := s.Ug ++ s.Ue, iUp := s.iUg ++ s.iUe }
  let s := { s with Uks := s.Uk ++ s.Usa, iUks := s.iUk ++ s.iUsa }
  let s := { s with Ujs := s.Uj ++ s.Usa, iUjs := s.iUj ++ s.iUsa }
  let s := { s with Ufr := s.Uo ++ s.Ul, iUfr := s.iUo ++ s.iUl }
  let s := { s with Uv := s.Uo ++ s.Uc ++ s.Ur, iUv := s.iUo ++ s.iUc ++ s.iUr }
  s

/-- C6: every derived named subset is the order-preserving (concatenation) union of
its inputs in the fixed hierarchy order — `s = sb ∪ sg`, `m = mp ∪ mr`, `l = c ∪ lm`,
`t = l ∪ r`, `a = t ∪ q`, `f = a ∪ o`, `n = f ∪ s`, `g = n ∪ m`, `p = g ∪ e` — on both
the index lists and the value lists; the length of each union is the sum of the input
lengths (in particular for disjoint inputs); and `build_dof_sets` is idempotent. -/
theorem c6_dof_set_algebra (s : DofSets) :
    ((build_dof_sets s).iUs = s.iUsb ++ s.iUsg ∧
      (build_dof_sets s).Us = s.Usb ++ s.Usg) ∧
    ((build_dof_sets s).iUm = s.iUmp ++ s.iUmr ∧
      (build_dof_sets s).Um = s.Ump ++ s.Umr) ∧
    ((build_dof_sets s).iUl = s.iUc ++ s.iUlm ∧
      (build_dof_sets s).Ul = s.Uc ++ s.Ulm) ∧
    ((build_dof_sets s).iUt = (build_dof_sets s).iUl ++ s.iUr ∧
      (build_dof_sets s).Ut = (build_dof_sets s).Ul ++ s.Ur) ∧
    ((build_dof_sets s).iUa = (build_dof_sets s).iUt ++ s.iUq ∧
      (build_dof_sets s).Ua = (build_dof_sets s).Ut ++ s.Uq) ∧
    ((build_dof_sets s).iUf = (build_dof_sets s).iUa ++ s.iUo ∧
      (build_dof_sets s).Uf = (build_dof_sets s).Ua ++ s.Uo) ∧
    ((build_dof_sets s).iUn = (build_dof_sets s).iUf ++ (build_dof_sets s).iUs ∧
      (build_dof_sets s).Un = (build_dof_sets s).Uf ++ (build_dof_sets s).Us) ∧
    ((build_dof_sets s).iUg = (build_dof_sets s).iUn ++ (build_dof_sets s).iUm ∧
      (build_dof_sets s).Ug = (build_dof_sets s).Un ++ (build_dof_sets s).Um) ∧
    ((build_dof_sets s).iUp = (build_dof_sets s).iUg ++ s.iUe ∧
      (build_dof_sets s).Up = (build_dof_sets s).Ug ++ s.Ue) ∧
    ((build_dof_sets s).iUs.length = s.iUsb.length + s.iUsg.length ∧
      (build_dof_sets s).iUm.length = s.iUmp.length + s.iUmr.length ∧
      (build_dof_sets s).iUl.length = s.iUc.length + s.iUlm.length ∧
      (build_dof_sets s).iUt.length = (build_dof_sets s).iUl.length + s.iUr.length ∧
      (build_dof_sets s).iUa.length = (build_dof_sets s).iUt.length + s.iUq.length ∧
      (build_dof_sets s).iUf.length = (build_dof_sets s).iUa.length + s.iUo.length ∧
      (build_dof_sets s).iUn.length = (build_dof_sets s).iUf.length + (build_dof_sets s).iUs.length ∧
      (build_dof_sets s).iUg.length = (build_dof_sets s).iUn.length + (build_dof_sets s).iUm.length ∧
      (build_dof_sets s).iUp.length = (build_dof_sets s).iUg.length + s.iUe.length) ∧
    build_dof_sets (build_dof_sets s) = build_dof_sets s := by
  refine ⟨⟨rfl, rfl⟩, ⟨rfl, rfl⟩, ⟨rfl, rfl⟩, ⟨rfl, rfl⟩, ⟨rfl, rfl⟩, ⟨rfl, rfl⟩,
    ⟨rfl, rfl⟩, ⟨rfl, rfl⟩, ⟨rfl, rfl⟩, ?_, ?_⟩
  · refine ⟨?_, ?_, ?_, ?_, ?_, ?_, ?_, ?_, ?_⟩ <;> simp [build_dof_sets] <;> omega
  · rfl

/-! ## Embedding of `Solver.solve_sol_101` (solver.py lines 1515-1584) -/

/-- Modelled from the spec: `partition_dense_symmetric(Kgg, iUs)` (imported from
`pyNastran.bdf.dev_vectorized.solver.utils`, not among the sampled sources) builds the
free-free block `Kgg[free, free]` with `free = complement(iUs)` in insertion order,
returning it together with the free index list; a pure function on new arrays. -/
def partition_dense_symmetric (K : List (List ℚ)) (iUs : List ℕ) :
    List (List ℚ) × List ℕ :=
  ((free_dofs K.length iUs).map
      (fun i => (free_dofs K.length iUs).map (fun j => (K.getD i []).getD j 0)),
    free_dofs K.length iUs)

/-- Modelled from the spec: `partition_dense_vector(Fg, iUs)` keeps the free entries
`Fg[free]`; a pure function on new arrays. -/
def partition_dense_vector (F : List ℚ) (iUs : List ℕ) : List ℚ × List ℕ :=
  ((free_dofs F.length iUs).map (fun i => F.getD i 0), free_dofs F.length iUs)

/-- The MPC write loop at the top of `solve_sol_101`:
`for (i, j, a) in zip(self.iUm, self.jUm, self.Um): Kgg[i, j] = a`. -/
def writeMPC (Kgg : ℕ → ℕ → ℚ) (triples : List (ℕ × ℕ × ℚ)) : ℕ → ℕ → ℚ :=
  triples.foldl (fun M t => fun x y => if x = t.1 ∧ y = t.2.1 then t.2.2 else M x y) Kgg

/-- The state effect of `Solver.solve_sol_101(Kgg, Fg)` on the global arrays.  The
method (1) assigns the MPC coefficients into `Kgg` (`Kgg[i, j] = a` over
`zip(iUm, jUm, Um)`), (2) partitions through `partition_dense_symmetric` /
`partition_dense_vector`, which build new arrays, and (3) calls `_solve` on the
partitioned copies (embedded above as the pure `solver_solve`; all its numpy
expressions allocate fresh arrays).  Only step (1) writes into the inputs, so the
final state of `(Kgg, Fg)` is the pair after those writes. -/
def solve_sol_101_state (Kgg : ℕ → ℕ → ℚ) (Fg : List ℚ)
    (iUm jUm : List ℕ) (Um : List ℚ) : (ℕ → ℕ → ℚ) × List ℚ :=
  (writeMPC Kgg (iUm.zip (jUm.zip Um)), Fg)

/-- C7 counterexample: with one MPC row (`iUm = [0]`, `jUm = [0]`, `Um = [42]`) and
`Kgg` identically `1`, `solve_sol_101` returns with `Kgg[0, 0] = 42`, so the claim
that every entry of `Kgg` is unchanged by the solve phase is false. -/
theorem c7_solve_mutates_kgg_counterexample :
    ¬ (∀ x y, (solve_sol_101_state (fun _ _ => 1) [5] [0] [0] [42]).1 x y =
        (fun _ _ => (1 : ℚ)) x y) := by
  intro h
  have h00 := h 0 0
  norm_num [solve_sol_101_state, writeMPC] at h00

theorem writeMPC_not_target (triples : List (ℕ × ℕ × ℚ)) (Kgg : ℕ → ℕ → ℚ)
    (x y : ℕ) (hx : ∀ t ∈ triples, x ≠ t.1) :
    writeMPC Kgg triples x y = Kgg x y := by
  induction triples generalizing Kgg with
  | nil => rfl
  | cons t rest ih =>
    have h1 : writeMPC Kgg (t :: rest) x y =
        writeMPC (fun a b => if a = t.1 ∧ b = t.2.1 then t.2.2 else Kgg a b) rest x y := rfl
    rw [h1, ih _ (fun u hu => hx u (List.mem_cons_of_mem _ hu))]
    show (if x = t.1 ∧ y = t.2.1 then t.2.2 else Kgg x y) = Kgg x y
    exact if_neg (fun hc => hx t (List.mem_cons_self t rest) hc.1)

/-- C7 amended: `solve_sol_101` never mutates `Fg`; `Kgg` is mutated only by the MPC
coefficient writes `Kgg[i, j] = a` over `zip(iUm, jUm, Um)` at its entry — in
particular, when the MPC set is empty `Kgg` is returned entirely unchanged, and no
entry in a row outside `iUm` is ever touched. -/
theorem c7_solve_frame_effect_amended (Kgg : ℕ → ℕ → ℚ) (Fg : List ℚ)
    (iUm jUm : List ℕ) (Um : List ℚ) :
    (solve_sol_101_state Kgg Fg iUm jUm Um).2 = Fg ∧
    (solve_sol_101_state Kgg Fg [] jUm Um).1 = Kgg ∧
    (∀ x y, x ∉ iUm → (solve_sol_101_state Kgg Fg iUm jUm Um).1 x y = Kgg x y) := by
  refine ⟨rfl, rfl, ?_⟩
  intro x y hx
  apply writeMPC_not_target
  intro t ht he
  exact hx (he ▸ (List.of_mem_zip ht).1)

/-- Witness for C7 amended at `Kgg = fun x y => x + 2 * y`, `Fg = [7]`,
`iUm = [3]`, `jUm = [1]`, `Um = [9]`, checking the untouched entry `(2, 0)`. -/
theorem c7_solve_frame_effect_amended_witness :
    (solve_sol_101_state (fun (x y : ℕ) => (x : ℚ) + 2 * y) [7] [3] [1] [9]).2 = [7] ∧
    (solve_sol_101_state (fun (x y : ℕ) => (x : ℚ) + 2 * y) [7] [] [1] [9]).1 =
      (fun (x y : ℕ) => (x : ℚ) + 2 * y) ∧
    ((2 : ℕ) ∉ ([3] : List ℕ) ∧
      (solve_sol_101_state (fun (x y : ℕ) => (x : ℚ) + 2 * y) [7] [3] [1] [9]).1 2 0 =
        (fun (x y : ℕ) => (x : ℚ) + 2 * y) 2 0) :=
  ⟨(c7_solve_frame_effect_amended (fun (x y : ℕ) => (x : ℚ) + 2 * y) [7] [3] [1] [9]).1,
    (c7_solve_frame_effect_amended (fun (x y : ℕ) => (x : ℚ) + 2 * y) [7] [] [1] [9]).2.1,
    by decide,
    (c7_solve_frame_effect_amended (fun (x y : ℕ) => (x : ℚ) + 2 * y) [7] [3] [1] [9]).2.2 2 0
      (by decide)⟩

/-! ## Modal case: `Solver.run_sol_103` / `solve_sol_103` (solver.py lines 545-607) -/

/-- Modelled from the spec: `solve_sol_103` is called by `run_sol_103`
(`Lambda, Ua = self.solve_sol_103(Kgg, Mgg)`) but its definition is not among the
sampled sources; per the spec's modal contract it applies the identical s-set
partition to `Kgg` and `Mgg` and solves the generalized eigenproblem
`Ka·x = λ·Ma·x` on the partitioned pair.  This definition is the partitioning
step, producing `(Ka, free)` and `(Ma, free)`. -/
def solve_sol_103_setup (Kgg Mgg : List (List ℚ)) (iUs : List ℕ) :
    (List (List ℚ) × List ℕ) × (List (List ℚ) × List ℕ) :=
  (partition_dense_symmetric Kgg iUs, partition_dense_symmetric Mgg iUs)

/-- Modelled from the spec: the generalized eigenvalue contract `Ka·x = λ·Ma·x`
specialized to a single free DOF (`Ka = [[ka]]`, `Ma = [[ma]]`). -/
def isGenEigenvalue1 (ka ma lam : ℚ) : Prop :=
  ∃ x : ℚ, x ≠ 0 ∧ ka * x = lam * (ma * x)

/-- C4: the modal solve applies one and the same s-set partition to `Kgg` and `Mgg`
(identical free index lists whenever the matrices have equal size), and for the
single-DOF spring-mass model — stiffness `k` and mass `m` on the one free DOF, the
other DOF constrained — the partitioned pair is `([[k]], [[m]])` and `lam` is a
generalized eigenvalue of that pair exactly when `lam = k / m`. -/
theorem c4_modal_partition_and_spring_mass (k m c cm lam : ℚ) (hm : m ≠ 0) :
    (∀ (Kgg Mgg : List (List ℚ)) (iUs : List ℕ), Kgg.length = Mgg.length →
      (solve_sol_103_setup Kgg Mgg iUs).1.2 = (solve_sol_103_setup Kgg Mgg iUs).2.2) ∧
    (solve_sol_103_setup [[c, 0], [0, k]] [[cm, 0], [0, m]] [0]).1.1 = [[k]] ∧
    (solve_sol_103_setup [[c, 0], [0, k]] [[cm, 0], [0, m]] [0]).2.1 = [[m]] ∧
    (solve_sol_103_setup [[c, 0], [0, k]] [[cm, 0], [0, m]] [0]).1.2 =
      (solve_sol_103_setup [[c, 0], [0, k]] [[cm, 0], [0, m]] [0]).2.2 ∧
    (isGenEigenvalue1 k m lam ↔ lam = k / m) := by
  refine ⟨?_, rfl, rfl, rfl, ?_⟩
  · intro Kgg Mgg iUs hlen
    unfold solve_sol_103_setup partition_dense_symmetric
    rw [hlen]
  · constructor
    · rintro ⟨x, hx, heq⟩
      have hkm : k = lam * m := by
        apply mul_right_cancel₀ hx
        rw [heq, mul_assoc]
      rw [hkm]
      field_simp
    · intro hl
      refine ⟨1, one_ne_zero, ?_⟩
      rw [hl, mul_one, mul_one, div_mul_cancel₀ k hm]

/-- Witness for C4 at `k = 6`, `m = 2`, `c = cm = 1`, `lam = 3` (eigenvalue `k/m = 3`). -/
theorem c4_modal_partition_and_spring_mass_witness :
    ((2 : ℚ) ≠ 0) ∧
    ((∀ (Kgg Mgg : List (List ℚ)) (iUs : List ℕ), Kgg.length = Mgg.length →
      (solve_sol_103_setup Kgg Mgg iUs).1.2 = (solve_sol_103_setup Kgg Mgg iUs).2.2) ∧
    (solve_sol_103_setup [[(1 : ℚ), 0], [0, 6]] [[(1 : ℚ), 0], [0, 2]] [0]).1.1 = [[(6 : ℚ)]] ∧
    (solve_sol_103_setup [[(1 : ℚ), 0], [0, 6]] [[(1 : ℚ), 0], [0, 2]] [0]).2.1 = [[(2 : ℚ)]] ∧
    (solve_sol_103_setup [[(1 : ℚ), 0], [0, 6]] [[(1 : ℚ), 0], [0, 2]] [0]).1.2 =
      (solve_sol_103_setup [[(1 : ℚ), 0], [0, 6]] [[(1 : ℚ), 0], [0, 2]] [0]).2.2 ∧
    (isGenEigenvalue1 6 2 3 ↔ (3 : ℚ) = 6 / 2)) :=
  ⟨by decide, c4_modal_partition_and_spring_mass 6 2 1 1 3 (by decide)⟩

/-! ## Embedding of `Solver.make_gpwg` (solver.py lines 1347-1512) -/

/-- Modelled from the spec: `triple(A, B)` from
`pyNastran.bdf.dev_vectorized.solver.utils` (not among the sampled sources) reduces
`B` through the mapping `A`: the triple product `Aᵀ · B · A`. -/
def triple {n : ℕ} (A : Matrix (Fin n) (Fin n) ℚ) (B : Matrix (Fin n) (Fin n) ℚ) :
    Matrix (Fin n) (Fin n) ℚ :=
  Aᵀ * B * A

/-- Lower embedding `Fin 3 → Fin 6` (rows/columns `0..2`). -/
def fin3lo (i : Fin 3) : Fin 6 := ⟨i.val, by omega⟩

/-- Upper embedding `Fin 3 → Fin 6` (rows/columns `3..5`). -/
def fin3hi (i : Fin 3) : Fin 6 := ⟨i.val + 3, by omega⟩

/-- `Mt_bar = Mo[:3, :3]` — the translational block. -/
def blockTT (Mo : Matrix (Fin 6) (Fin 6) ℚ) : Matrix (Fin 3) (Fin 3) ℚ :=
  fun i j => Mo (fin3lo i) (fin3lo j)

/-- `Mtr_bar = Mo[:3, 3:]` — the translation/rotation coupling block. -/
def blockTR (Mo : Matrix (Fin 6) (Fin 6) ℚ) : Matrix (Fin 3) (Fin 3) ℚ :=
  fun i j => Mo (fin3lo i) (fin3hi j)

/-- `Mr_bar = Mo[3:, 3:]` — the rotational block. -/
def blockRR (Mo : Matrix (Fin 6) (Fin 6) ℚ) : Matrix (Fin 3) (Fin 3) ℚ :=
  fun i j => Mo (fin3hi i) (fin3hi j)

/-- The matrix assembled into `cg` before the per-row division (eq G-18 in the
source's reference): a permuted, sign-adjusted arrangement of the principal-frame
coupling terms `Mtr`. -/
def cg_terms (Mtr : Matrix (Fin 3) (Fin 3) ℚ) : Matrix (Fin 3) (Fin 3) ℚ :=
  !![Mtr 0 0, -(Mtr 0 2), Mtr 0 1;
     Mtr 1 2, Mtr 1 1, -(Mtr 1 0);
     -(Mtr 2 1), Mtr 2 0, Mtr 2 2]

/-- The center-of-gravity stage of `make_gpwg`: build `cg_terms Mtr`, then divide row
`i` by the principal mass `Mt[i, i]` only when that mass is nonzero
(`if mass[0] != 0.: cg[0, :] /= Mx`, etc.).  The subsequent `nan_to_num(cg)` of the
original formulation is commented out in the source, and exact arithmetic produces no
NaN here in any case. -/
def gpwg_cg (Mt Mtr : Matrix (Fin 3) (Fin 3) ℚ) : Matrix (Fin 3) (Fin 3) ℚ :=
  fun i j =>
    if i = 0 then (if Mt 0 0 ≠ 0 then cg_terms Mtr i j / Mt 0 0 else cg_terms Mtr i j)
    else if i = 1 then (if Mt 1 1 ≠ 0 then cg_terms Mtr i j / Mt 1 1 else cg_terms Mtr i j)
    else (if Mt 2 2 ≠ 0 then cg_terms Mtr i j / Mt 2 2 else cg_terms Mtr i j)

/-- The inertia-tensor stage of `make_gpwg` (`II = nan_to_num(II)` is the identity over
exact rationals).  The source assembles the second row as `[I21, I22, I13]` — the
`(1, 2)` entry repeats `I13` instead of `I23`; this is kept as in the source. -/
def gpwg_II (Mt Mr cg : Matrix (Fin 3) (Fin 3) ℚ) : Matrix (Fin 3) (Fin 3) ℚ :=
  !![Mr 0 0 - Mt 1 1 * (cg 1 2) ^ 2 - Mt 2 2 * (cg 2 1) ^ 2,
       -(Mr 0 1) - Mt 2 2 * cg 2 0 * cg 2 1,
       -(Mr 0 2) - Mt 1 1 * cg 1 0 * cg 1 2;
     -(Mr 0 1) - Mt 2 2 * cg 2 0 * cg 2 1,
       Mr 1 1 - Mt 2 2 * (cg 2 0) ^ 2 - Mt 0 0 * (cg 0 2) ^ 2,
       -(Mr 0 2) - Mt 1 1 * cg 1 0 * cg 1 2;
     -(Mr 0 2) - Mt 1 1 * cg 1 0 * cg 1 2,
       -(Mr 1 2) - Mt 0 0 * cg 0 1 * cg 0 2,
       Mr 2 2 - Mt 0 0 * (cg 0 1) ^ 2 - Mt 1 1 * (cg 1 0) ^ 2]

/-- The 6×6 mass matrix of a single point mass `m` with no rotary inertia
(`diag(m, m, m, 0, 0, 0)`), located exactly at the reference point, for which the
rigid-body mapping `D` of `make_gpwg` is the identity (`Tr = 0`, `Ti = eye(3)`). -/
def pointMassMgg (m : ℚ) : Matrix (Fin 6) (Fin 6) ℚ :=
  fun i j => if i = j ∧ i.val < 3 then m else 0

/-- C9 counterexample: in the principal frame, take the translational block
`Mt = diag(0, 1, 1)` (first principal mass exactly zero — `S = eye(3)` is a valid
eigen-decomposition output here since `Mt` is already diagonal with ascending
eigenvalues) and coupling block `Mtr` of all ones.  The guarded division is skipped,
and the first CG row is left as the raw coupling terms `(1, -1, 1)`, not as a
NaN-cleaned zero row: the claim's zero-row statement is false. -/
theorem c9_zero_mass_cg_row_counterexample :
    (!![0, 0, 0; 0, 1, 0; 0, 0, 1] : Matrix (Fin 3) (Fin 3) ℚ) 0 0 = 0 ∧
    gpwg_cg !![0, 0, 0; 0, 1, 0; 0, 0, 1] !![1, 1, 1; 1, 1, 1; 1, 1, 1] 0 0 = 1 ∧
    ¬(∀ j : Fin 3,
      gpwg_cg !![0, 0, 0; 0, 1, 0; 0, 0, 1] !![1, 1, 1; 1, 1, 1; 1, 1, 1] 0 j = 0) := by
  refine ⟨by norm_num, ?_, ?_⟩
  · norm_num [gpwg_cg, cg_terms]
  · intro h
    have := h 0
    norm_num [gpwg_cg, cg_terms] at this

theorem triple_one_6 (B : Matrix (Fin 6) (Fin 6) ℚ) : triple 1 B = B := by
  unfold triple
  rw [transpose_one, one_mul, mul_one]

theorem blockTT_pointMass (m : ℚ) :
    blockTT (pointMassMgg m) = m • (1 : Matrix (Fin 3) (Fin 3) ℚ) := by
  funext i j
  show (if fin3lo i = fin3lo j ∧ (fin3lo i).val < 3 then m else 0) = (m • (1 : Matrix (Fin 3) (Fin 3) ℚ)) i j
  have hlt : (fin3lo i).val < 3 := i.isLt
  by_cases hij : i = j
  · rw [if_pos ⟨by rw [hij], hlt⟩, hij]
    simp [Matrix.one_apply]
  · rw [if_neg (fun hc => hij (Fin.ext (by simpa [fin3lo, Fin.ext_iff] using hc.1)))]
    simp [Matrix.one_apply, hij]

theorem blockTR_pointMass (m : ℚ) : blockTR (pointMassMgg m) = 0 := by
  funext i j
  show (if fin3lo i = fin3hi j ∧ (fin3lo i).val < 3 then m else 0) = 0
  rw [if_neg]
  rintro ⟨hc, -⟩
  have : i.val = j.val + 3 := by simpa [fin3lo, fin3hi, Fin.ext_iff] using hc
  omega

theorem blockRR_pointMass (m : ℚ) : blockRR (pointMassMgg m) = 0 := by
  funext i j
  show (if fin3hi i = fin3hi j ∧ (fin3hi i).val < 3 then m else 0) = 0
  rw [if_neg]
  rintro ⟨-, hc⟩
  simp [fin3hi] at hc

theorem triple_smul_one (m : ℚ) (S : Matrix (Fin 3) (Fin 3) ℚ) (hS : Sᵀ * S = 1) :
    triple S (m • (1 : Matrix (Fin 3) (Fin 3) ℚ)) = m • 1 := by
  unfold triple
  rw [Matrix.mul_smul, mul_one, Matrix.smul_mul, hS]

theorem triple_zero (S : Matrix (Fin 3) (Fin 3) ℚ) : triple S (0 : Matrix (Fin 3) (Fin 3) ℚ) = 0 := by
  unfold triple
  rw [mul_zero, zero_mul]

theorem gpwg_cg_pointMass (m : ℚ) (hm : m ≠ 0) :
    gpwg_cg (m • (1 : Matrix (Fin 3) (Fin 3) ℚ)) (0 : Matrix (Fin 3) (Fin 3) ℚ) = 0 := by
  funext i j
  have h00 : (m • (1 : Matrix (Fin 3) (Fin 3) ℚ)) 0 0 = m := by simp
  have h11 : (m • (1 : Matrix (Fin 3) (Fin 3) ℚ)) 1 1 = m := by simp
  have h22 : (m • (1 : Matrix (Fin 3) (Fin 3) ℚ)) 2 2 = m := by simp
  fin_cases i <;> fin_cases j <;>
    simp [gpwg_cg, cg_terms, h00, h11, h22, hm, Matrix.vecHead, Matrix.vecTail]

theorem gpwg_II_zero (Mt : Matrix (Fin 3) (Fin 3) ℚ) :
    gpwg_II Mt (0 : Matrix (Fin 3) (Fin 3) ℚ) (0 : Matrix (Fin 3) (Fin 3) ℚ) = 0 := by
  funext i j
  fin_cases i <;> fin_cases j <;> simp [gpwg_II, Matrix.vecHead, Matrix.vecTail]

/-- C9 amended: for each translational axis whose principal mass `Mt[i, i]` is nonzero
the CG row is the (permuted, sign-adjusted) principal-frame coupling terms divided by
that mass; when a principal mass is exactly zero the division is skipped and the row
is left as the raw coupling terms (the `nan_to_num` cleaning is commented out in the
source, and the row is zero only when those coupling terms are zero).  A single point
mass `m ≠ 0` located exactly at the reference point (rigid-body mapping `D = eye(6)`,
so `Mo = Mgg = diag(m, m, m, 0, 0, 0)`) yields, for every orthogonal principal-axis
rotation `S`, CG `= (0, 0, 0)` and inertia tensor `= diag(0, 0, 0)`. -/
theorem c9_gpwg_cg_guarded_division_amended :
    (∀ (Mt Mtr : Matrix (Fin 3) (Fin 3) ℚ) (j : Fin 3),
      (Mt 0 0 ≠ 0 → gpwg_cg Mt Mtr 0 j = cg_terms Mtr 0 j / Mt 0 0) ∧
      (Mt 0 0 = 0 → gpwg_cg Mt Mtr 0 j = cg_terms Mtr 0 j) ∧
      (Mt 1 1 ≠ 0 → gpwg_cg Mt Mtr 1 j = cg_terms Mtr 1 j / Mt 1 1) ∧
      (Mt 1 1 = 0 → gpwg_cg Mt Mtr 1 j = cg_terms Mtr 1 j) ∧
      (Mt 2 2 ≠ 0 → gpwg_cg Mt Mtr 2 j = cg_terms Mtr 2 j / Mt 2 2) ∧
      (Mt 2 2 = 0 → gpwg_cg Mt Mtr 2 j = cg_terms Mtr 2 j)) ∧
    (∀ (m : ℚ) (S : Matrix (Fin 3) (Fin 3) ℚ), m ≠ 0 → Sᵀ * S = 1 →
      gpwg_cg (triple S (blockTT (triple (1 : Matrix (Fin 6) (Fin 6) ℚ) (pointMassMgg m))))
          (triple S (blockTR (triple 1 (pointMassMgg m)))) = 0 ∧
      gpwg_II (triple S (blockTT (triple 1 (pointMassMgg m))))
          (triple S (blockRR (triple 1 (pointMassMgg m))))
          (gpwg_cg (triple S (blockTT (triple 1 (pointMassMgg m))))
            (triple S (blockTR (triple 1 (pointMassMgg m))))) = 0) := by
  constructor
  · intro Mt Mtr j
    refine ⟨fun h => ?_, fun h => ?_, fun h => ?_, fun h => ?_, fun h => ?_, fun h => ?_⟩ <;>
      simp [gpwg_cg, h]
  · intro m S hm hS
    rw [triple_one_6, blockTT_pointMass, blockTR_pointMass, blockRR_pointMass,
      triple_smul_one m S hS, triple_zero, gpwg_cg_pointMass m hm, gpwg_II_zero]
    exact ⟨rfl, rfl⟩

/-- Witness for C9 amended: the division branch at `Mt = diag(2, 2, 2)`,
`Mtr = all-ones`, entry `(0, 0)`; and the point-mass scenario at `m = 1`, `S = eye(3)`. -/
theorem c9_gpwg_cg_guarded_division_amended_witness :
    (((!![2, 0, 0; 0, 2, 0; 0, 0, 2] : Matrix (Fin 3) (Fin 3) ℚ) 0 0 ≠ 0 ∧
        (1 : ℚ) ≠ 0 ∧
        ((1 : Matrix (Fin 3) (Fin 3) ℚ)ᵀ * 1 = 1)) ∧
      gpwg_cg !![2, 0, 0; 0, 2, 0; 0, 0, 2] !![1, 1, 1; 1, 1, 1; 1, 1, 1] 0 0 =
        cg_terms !![1, 1, 1; 1, 1, 1; 1, 1, 1] 0 0 /
          (!![2, 0, 0; 0, 2, 0; 0, 0, 2] : Matrix (Fin 3) (Fin 3) ℚ) 0 0 ∧
      gpwg_cg (triple 1 (blockTT (triple (1 : Matrix (Fin 6) (Fin 6) ℚ) (pointMassMgg 1))))
          (triple 1 (blockTR (triple 1 (pointMassMgg 1)))) = 0 ∧
      gpwg_II (triple 1 (blockTT (triple 1 (pointMassMgg 1))))
          (triple 1 (blockRR (triple 1 (pointMassMgg 1))))
          (gpwg_cg (triple 1 (blockTT (triple 1 (pointMassMgg 1))))
            (triple 1 (blockTR (triple 1 (pointMassMgg 1))))) = 0) :=
  ⟨⟨by norm_num, by norm_num, by rw [transpose_one, one_mul]⟩,
    (c9_gpwg_cg_guarded_division_amended.1 !![2, 0, 0; 0, 2, 0; 0, 0, 2]
      !![1, 1, 1; 1, 1, 1; 1, 1, 1] 0).1 (by norm_num),
    (c9_gpwg_cg_guarded_division_amended.2 1 1 (by norm_num)
      (by rw [transpose_one, one_mul])).1,
    (c9_gpwg_cg_guarded_division_amended.2 1 1 (by norm_num)
      (by rw [transpose_one, one_mul])).2⟩
